import Mathlib

/-!
# Substring search: Knuth-Morris-Pratt, Boyer-Moore, Rabin-Karp

A shallow embedding of `src/main.cpp`.

Modelling conventions
* A `std::string` is a `List Nat` of byte values.  `char` is signed: `s[i]` is the byte at `i`
  read as a two's-complement value in `[-128, 127]` when `i < s.size()`, the terminator `0`
  when `i = s.size()`, and undefined behaviour beyond.
* A `std::vector` is a `List`; indexing outside `[0, size)`, in particular with a negative
  `char`, is undefined behaviour.
* Undefined behaviour is made explicit: every operation returns `Except Fault _`.
* `int` arithmetic that involves the radix or a hash is checked against the range of a 32-bit
  `int`: a result outside it is undefined behaviour.  `%` on `int` is the truncating
  `Int.tmod`.  The `int` counters and offsets of the loops are bounded by the lengths of the
  strings, which are taken to be below `2^31`; the one counter whose bound can wrap, in the
  constructor of `RabinKarp`, is checked.
* `size_t` subtraction wraps modulo `2^64`, and an `int` compared with a `size_t` is first
  converted to `size_t`.
* The template argument `R` is an ordinary argument.
-/

namespace SubstringSearch

/-- Ways in which the program leaves defined behaviour (`outOfFuel` belongs to the model only:
it marks a loop that was not given enough iterations). -/
inductive Fault where
  | stringIndex
  | vectorIndex
  | signedOverflow
  | outOfFuel
  deriving DecidableEq, Repr

deriving instance DecidableEq for Except

/-- The value of a byte read as a `char`, which is signed: `0 .. 127` are themselves and
`128 .. 255` are `-128 .. -1`. -/
def toChar (b : Nat) : Int :=
  if b % 256 < 128 then ((b % 256 : Nat) : Int) else ((b % 256 : Nat) : Int) - 256

/-- `s[i]` on a `std::string`, promoted to `int`. -/
def strAt (s : List Nat) (i : Nat) : Except Fault Int :=
  match s[i]? with
  | some b => .ok (toChar b)
  | none => if i = s.length then .ok 0 else .error .stringIndex

/-- The result of an arithmetic operation on `int`: it is undefined behaviour when the
mathematical result does not fit in 32 bits. -/
def checkInt (z : Int) : Except Fault Int :=
  if -2147483648 ≤ z ∧ z ≤ 2147483647 then .ok z else .error .signedOverflow

/-- `v[i]` on a `std::vector`, read. -/
def vecAt {α : Type} (v : List α) (i : Nat) : Except Fault α :=
  match v[i]? with
  | some a => .ok a
  | none => .error .vectorIndex

/-- `v[i] = a` on a `std::vector`. -/
def vecSet {α : Type} (v : List α) (i : Nat) (a : α) : Except Fault (List α) :=
  if i < v.length then .ok (v.set i a) else .error .vectorIndex

/-- `v[i]` with an `int` or `char` index. -/
def vecAtInt {α : Type} (v : List α) (i : Int) : Except Fault α :=
  if i < 0 then .error .vectorIndex else vecAt v i.toNat

/-- `v[i] = a` with an `int` or `char` index. -/
def vecSetInt {α : Type} (v : List α) (i : Int) (a : α) : Except Fault (List α) :=
  if i < 0 then .error .vectorIndex else vecSet v i.toNat a

/-- Conversion of an `int` to `size_t`. -/
def toSizeT (z : Int) : Nat := (z % 2 ^ 64).toNat

/-- The difference `a - b` of two `size_t` values: it wraps modulo `2^64` when `a < b`. -/
def sizeSub (a b : Nat) : Nat := if b ≤ a then a - b else (a + 2 ^ 64 - b) % 2 ^ 64

/-! ## Knuth-Morris-Pratt -/

/-- The members of `struct KMP`. -/
structure KMP where
  input : List Nat
  dfa : List (List Int)
  deriving DecidableEq, Repr

/-- `dfa[c][j]`, read. -/
def KMP.dfaAt (dfa : List (List Int)) (c : Int) (j : Int) : Except Fault Int := do
  let row ← vecAtInt dfa c
  vecAtInt row j

/-- `dfa[c][j] = v`. -/
def KMP.dfaSet (dfa : List (List Int)) (c : Int) (j : Int) (v : Int) :
    Except Fault (List (List Int)) := do
  let row ← vecAtInt dfa c
  let row' ← vecSetInt row j v
  vecSetInt dfa c row'

/-- The loop `for (int c = 0; c < R; ++c) dfa[c][i] = dfa[c][x];`, with `k` iterations left
and the counter at `c`. -/
def KMP.copyColumn (i x : Int) : Nat → Nat → List (List Int) → Except Fault (List (List Int))
  | 0, _, dfa => .ok dfa
  | k + 1, c, dfa => do
    let v ← KMP.dfaAt dfa (c : Int) x
    let dfa' ← KMP.dfaSet dfa (c : Int) i v
    KMP.copyColumn i x k (c + 1) dfa'

/-- The loop `for (int i = 1, x = 0; i < input.size(); ++i)` of the constructor, with `k`
iterations left. -/
def KMP.buildLoop (R : Nat) (input : List Nat) :
    Nat → Int → Int → List (List Int) → Except Fault (List (List Int))
  | 0, _, _, dfa => .ok dfa
  | k + 1, i, x, dfa => do
    let dfa1 ← KMP.copyColumn i x R 0 dfa
    let ci ← strAt input i.toNat
    let dfa2 ← KMP.dfaSet dfa1 ci i (i + 1)
    let x' ← KMP.dfaAt dfa2 ci x
    KMP.buildLoop R input k (i + 1) x' dfa2

/-- The constructor `KMP(string s)`, where `moved` is the state of the parameter `s` after
`input{std::move(s)}`.  The initialiser `dfa{R, {static_cast<int>(s.size()+1), 0}}` selects
`vector(size_type, const value_type&)` with the value list-initialised from two `int`s, so
every one of the `R` rows is the two-element vector `{s.size()+1, 0}`. -/
def KMP.build (R : Nat) (moved s : List Nat) : Except Fault KMP := do
  let input := s
  let dfa0 : List (List Int) := List.replicate R [(moved.length : Int) + 1, 0]
  let c0 ← strAt input 0
  let dfa1 ← KMP.dfaSet dfa0 c0 0 1
  let dfa2 ← KMP.buildLoop R input (input.length - 1) 1 0 dfa1
  .ok { input := input, dfa := dfa2 }

/-- The constructor `KMP(string s)`: the moved-from `std::string` is empty, as it is in the
common standard libraries. -/
def KMP.new (R : Nat) (s : List Nat) : Except Fault KMP := KMP.build R [] s

/-- The loop `while (i < txt.size() && j < input.size()) j = dfa[txt[i++]][j];`, with `k`
symbols of the text left; it yields the final `(i, j)`. -/
def KMP.scan (self : KMP) (txt : List Nat) : Nat → Nat → Int → Except Fault (Nat × Int)
  | 0, i, j => .ok (i, j)
  | k + 1, i, j =>
    if toSizeT j < self.input.length then do
      let c ← strAt txt i
      let j' ← KMP.dfaAt self.dfa c j
      KMP.scan self txt k (i + 1) j'
    else .ok (i, j)

/-- The method `KMP::find_in`. -/
def KMP.find_in (self : KMP) (txt : List Nat) : Except Fault Int := do
  let (i, j) ← KMP.scan self txt txt.length 0 0
  if toSizeT j = self.input.length then .ok ((i : Int) - j) else .ok (txt.length : Int)

/-- The expression `KMP<R>{pattern}.find_in(text)`. -/
def KMP.search (R : Nat) (pattern text : List Nat) : Except Fault Int := do
  let m ← KMP.new R pattern
  m.find_in text

/-! ## Boyer-Moore -/

/-- The members of `struct BoyerMoore`. -/
structure BoyerMoore where
  input : List Nat
  right : List Int
  deriving DecidableEq, Repr

/-- The loop `for (int i = 0; i < input.size(); ++i) right[input[i]] = i;`, with `k`
iterations left. -/
def BoyerMoore.fill (input : List Nat) : Nat → Nat → List Int → Except Fault (List Int)
  | 0, _, right => .ok right
  | k + 1, i, right => do
    let c ← strAt input i
    let right' ← vecSetInt right c (i : Int)
    BoyerMoore.fill input k (i + 1) right'

/-- The constructor `BoyerMoore(string s)`. -/
def BoyerMoore.new (R : Nat) (s : List Nat) : Except Fault BoyerMoore := do
  let right ← BoyerMoore.fill s s.length 0 (List.replicate R (-1))
  .ok { input := s, right := right }

/-- The inner loop `for (int j = input.size() - 1; j >= 0; --j)` at alignment `i`; the
argument is `j + 1`, the result is the value of `skip` when the loop is left. -/
def BoyerMoore.compare (self : BoyerMoore) (txt : List Nat) (i : Nat) : Nat → Except Fault Int
  | 0 => .ok 0
  | j + 1 => do
    let p ← strAt self.input j
    let t ← strAt txt (i + j)
    if p ≠ t then do
      let r ← vecAtInt self.right t
      .ok (max 1 ((j : Int) - r))
    else BoyerMoore.compare self txt i j

/-- The loop `for (int i = 0; i < txt.size() - input.size(); i += skip)` with its bound
already computed; every iteration uses one unit of fuel. -/
def BoyerMoore.align (self : BoyerMoore) (txt : List Nat) (bound : Nat) :
    Nat → Nat → Except Fault Int
  | 0, i => if i < bound then .error .outOfFuel else .ok (txt.length : Int)
  | fuel + 1, i =>
    if i < bound then do
      let skip ← BoyerMoore.compare self txt i self.input.length
      if skip = 0 then .ok (i : Int)
      else BoyerMoore.align self txt bound fuel (i + skip.toNat)
    else .ok (txt.length : Int)

/-- The method `BoyerMoore::find_in`.  The offset grows by at least one in every iteration, so
`bound` iterations are enough. -/
def BoyerMoore.find_in (self : BoyerMoore) (txt : List Nat) : Except Fault Int :=
  let bound := sizeSub txt.length self.input.length
  BoyerMoore.align self txt bound bound 0

/-- The expression `BoyerMoore<R>{pattern}.find_in(text)`. -/
def BoyerMoore.search (R : Nat) (pattern text : List Nat) : Except Fault Int := do
  let m ← BoyerMoore.new R pattern
  m.find_in text

/-! ## Rabin-Karp -/

/-- The members of `struct RabinKarp`. -/
structure RabinKarp where
  input : List Nat
  prime : Int
  input_hash : Int
  remove_factor : Int
  deriving DecidableEq, Repr

/-- The loop of `RabinKarp::hash`, `h = (h * R + s[i]) % prime`, with `k` iterations left. -/
def RabinKarp.hashLoop (R : Nat) (prime : Int) (s : List Nat) :
    Nat → Nat → Int → Except Fault Int
  | 0, _, h => .ok h
  | k + 1, i, h => do
    let c ← strAt s i
    let a ← checkInt (h * (R : Int))
    let b ← checkInt (a + c)
    RabinKarp.hashLoop R prime s k (i + 1) (Int.tmod b prime)

/-- The method `RabinKarp::hash(s, n)`. -/
def RabinKarp.hash (R : Nat) (prime : Int) (s : List Nat) (n : Nat) : Except Fault Int :=
  RabinKarp.hashLoop R prime s n 0 0

/-- The loop `remove_factor = (remove_factor * R) % prime` of the constructor, with `k`
iterations left. -/
def RabinKarp.removeLoop (R : Nat) (prime : Int) : Nat → Int → Except Fault Int
  | 0, rf => .ok rf
  | k + 1, rf => do
    let a ← checkInt (rf * (R : Int))
    RabinKarp.removeLoop R prime k (Int.tmod a prime)

/-- The constructor `RabinKarp(string s)`.  Its loop runs for `i = 1 .. input.size() - 1` with
an `int` counter and a `size_t` bound: when the bound is `INT_MAX` or more (as it is for the
empty pattern, where it wraps to `2^64 - 1`) the counter is incremented past `INT_MAX`. -/
def RabinKarp.new (R : Nat) (s : List Nat) : Except Fault RabinKarp := do
  let prime : Int := 997
  let bound := sizeSub s.length 1
  if 2147483647 ≤ bound then .error .signedOverflow
  else do
    let rf ← RabinKarp.removeLoop R prime bound 1
    let h ← RabinKarp.hash R prime s s.length
    .ok { input := s, prime := prime, input_hash := h, remove_factor := rf }

/-- The loop `for (int i = input.size(); i < txt.size(); ++i)` of `find_in`, with `k`
iterations left. -/
def RabinKarp.roll (R : Nat) (self : RabinKarp) (txt : List Nat) :
    Nat → Nat → Int → Except Fault Int
  | 0, _, _ => .ok (txt.length : Int)
  | k + 1, i, txt_hash => do
    let out ← strAt txt (sizeSub i self.input.length)
    let a ← checkInt (self.remove_factor * out)
    let b ← checkInt (txt_hash + self.prime)
    let c ← checkInt (b - Int.tmod a self.prime)
    let h1 := Int.tmod c self.prime
    let inc ← strAt txt i
    let d ← checkInt (h1 * (R : Int))
    let e ← checkInt (d + inc)
    let h2 := Int.tmod e self.prime
    if h2 = self.input_hash then .ok ((sizeSub i self.input.length : Int) + 1)
    else RabinKarp.roll R self txt k (i + 1) h2

/-- The method `RabinKarp::find_in`. -/
def RabinKarp.find_in (R : Nat) (self : RabinKarp) (txt : List Nat) : Except Fault Int := do
  let txt_hash ← RabinKarp.hash R self.prime txt self.input.length
  if txt_hash = self.input_hash then .ok 0
  else RabinKarp.roll R self txt (txt.length - self.input.length) self.input.length txt_hash

/-- The expression `RabinKarp<R>{pattern}.find_in(text)`. -/
def RabinKarp.search (R : Nat) (pattern text : List Nat) : Except Fault Int := do
  let m ← RabinKarp.new R pattern
  RabinKarp.find_in R m text

/-! ## The benchmark inputs -/

/-- The string `"findaneedleinhaystack"`. -/
def haystack : List Nat :=
  [102, 105, 110, 100, 97, 110, 101, 101, 100, 108, 101, 105, 110, 104, 97, 121, 115, 116, 97,
    99, 107]

/-- The string `"needle"`. -/
def needle : List Nat := [110, 101, 101, 100, 108, 101]

/-- The value of `radix` in the benchmarks. -/
def radix : Nat := 256

/-- The call timed by the benchmark `knuth_morris_pratt`. -/
def knuth_morris_pratt : Except Fault Int := KMP.search radix needle haystack

/-- The call timed by the benchmark `boyer_moore`. -/
def boyer_moore : Except Fault Int := BoyerMoore.search radix needle haystack

/-- The call timed by the benchmark `rabin_karp`. -/
def rabin_karp : Except Fault Int := RabinKarp.search radix needle haystack

/-! ## Reference notions -/

/-- The window `text[k .. k+m)`. -/
def window (text : List Nat) (m k : Nat) : List Nat := (text.drop k).take m

/-- The pattern occurs in the text at offset `i`: `text[i .. i+m) == pattern`. -/
def occursAt (pattern text : List Nat) (i : Nat) : Prop :=
  i + pattern.length ≤ text.length ∧ window text pattern.length i = pattern

instance (pattern text : List Nat) (i : Nat) : Decidable (occursAt pattern text i) := by
  unfold occursAt; infer_instance

/-- Reference leftmost search, in the words of the specification: the smallest index `i` with
`text[i .. i+m) == pattern`, and the text length when the pattern does not occur. -/
def referenceSearch (pattern text : List Nat) : Nat :=
  match (List.range (text.length + 1)).find? (fun i => decide (occursAt pattern text i)) with
  | some i => i
  | none => text.length

/-- The string `"xyz"`. -/
def xyz : List Nat := [120, 121, 122]

/-! ## Instrumented loop

The loop of `RabinKarp::find_in` once more, returning next to the result the values that
`txt_hash` takes in every iteration, so that statements about the iterations can be made. -/

/-- The loop of `RabinKarp::find_in` as in `RabinKarp.roll`, recording for every iteration the
value of `txt_hash` after its first and after its second assignment. -/
def RabinKarp.rollTrace (R : Nat) (self : RabinKarp) (txt : List Nat) :
    Nat → Nat → Int → Except Fault (Int × List (Int × Int))
  | 0, _, _ => .ok ((txt.length : Int), [])
  | k + 1, i, txt_hash => do
    let out ← strAt txt (sizeSub i self.input.length)
    let a ← checkInt (self.remove_factor * out)
    let b ← checkInt (txt_hash + self.prime)
    let c ← checkInt (b - Int.tmod a self.prime)
    let h1 := Int.tmod c self.prime
    let inc ← strAt txt i
    let d ← checkInt (h1 * (R : Int))
    let e ← checkInt (d + inc)
    let h2 := Int.tmod e self.prime
    if h2 = self.input_hash then .ok ((sizeSub i self.input.length : Int) + 1, [(h1, h2)])
    else do
      let (r, tr) ← RabinKarp.rollTrace R self txt k (i + 1) h2
      .ok (r, (h1, h2) :: tr)

/-- The method `RabinKarp::find_in` as in `RabinKarp.find_in`, returning the result, the hash
of the first window, and the record of the loop. -/
def RabinKarp.find_inTrace (R : Nat) (self : RabinKarp) (txt : List Nat) :
    Except Fault (Int × Int × List (Int × Int)) := do
  let txt_hash ← RabinKarp.hash R self.prime txt self.input.length
  if txt_hash = self.input_hash then .ok (0, txt_hash, [])
  else do
    let (r, tr) ← RabinKarp.rollTrace R self txt (txt.length - self.input.length)
      self.input.length txt_hash
    .ok (r, txt_hash, tr)

/-! ## Basic facts about the memory model -/

theorem toChar_ge (b : Nat) : -128 ≤ toChar b := by
  unfold toChar
  split <;> omega

theorem toChar_le (b : Nat) : toChar b ≤ 127 := by
  unfold toChar
  split <;> omega

theorem strAt_of_lt (s : List Nat) (i : Nat) (h : i < s.length) :
    strAt s i = .ok (toChar s[i]) := by
  simp [strAt, List.getElem?_eq_getElem h]

theorem checkInt_ok (z : Int) (h1 : -2147483648 ≤ z) (h2 : z ≤ 2147483647) :
    checkInt z = .ok z := by
  simp [checkInt, h1, h2]

/-! ## Boyer-Moore: the alignment loop has enough fuel -/

theorem strAt_ne_outOfFuel (s : List Nat) (i : Nat) : strAt s i ≠ .error .outOfFuel := by
  unfold strAt
  split
  · simp
  · split <;> simp

theorem vecAt_ne_outOfFuel {α : Type} (v : List α) (i : Nat) :
    vecAt v i ≠ .error .outOfFuel := by
  unfold vecAt
  split <;> simp

theorem vecAtInt_ne_outOfFuel {α : Type} (v : List α) (i : Int) :
    vecAtInt v i ≠ .error .outOfFuel := by
  unfold vecAtInt
  split
  · simp
  · exact vecAt_ne_outOfFuel v _

theorem BoyerMoore.compare_ne_outOfFuel (self : BoyerMoore) (txt : List Nat) (i : Nat) :
    ∀ j, BoyerMoore.compare self txt i j ≠ .error .outOfFuel := by
  intro j
  induction j with
  | zero => simp [BoyerMoore.compare]
  | succ j ih =>
    rw [BoyerMoore.compare]
    have hp := strAt_ne_outOfFuel self.input j
    have ht := strAt_ne_outOfFuel txt (i + j)
    cases hpe : strAt self.input j with
    | error e => rw [hpe] at hp; simpa [bind, Except.bind] using hp
    | ok p =>
      cases hte : strAt txt (i + j) with
      | error e => rw [hte] at ht; simpa [bind, Except.bind] using ht
      | ok t =>
        simp only [bind, Except.bind]
        by_cases hpt : p = t
        · simpa [hpt] using ih
        · have hr := vecAtInt_ne_outOfFuel self.right t
          cases hre : vecAtInt self.right t with
          | error e => rw [hre] at hr; simpa [hpt] using hr
          | ok r => simp [hpt]

theorem BoyerMoore.compare_skip (self : BoyerMoore) (txt : List Nat) (i : Nat) :
    ∀ (j : Nat) (s : Int), BoyerMoore.compare self txt i j = .ok s → s = 0 ∨ 1 ≤ s := by
  intro j
  induction j with
  | zero => intro s h; left; simpa [BoyerMoore.compare] using h.symm
  | succ j ih =>
    intro s h
    rw [BoyerMoore.compare] at h
    cases hpe : strAt self.input j with
    | error e => simp [hpe, bind, Except.bind] at h
    | ok p =>
      cases hte : strAt txt (i + j) with
      | error e => simp [hpe, hte, bind, Except.bind] at h
      | ok t =>
        simp only [hpe, hte, bind, Except.bind] at h
        by_cases hpt : p = t
        · exact ih s (by simpa [hpt] using h)
        · cases hre : vecAtInt self.right t with
          | error e => simp [hpt, hre] at h
          | ok r =>
            simp only [hpt, hre, ne_eq, not_false_eq_true, if_true, Except.ok.injEq] at h
            right; rw [← h]; exact le_max_left _ _

theorem BoyerMoore.align_ne_outOfFuel (self : BoyerMoore) (txt : List Nat) (bound : Nat) :
    ∀ (fuel i : Nat), bound ≤ i + fuel →
      BoyerMoore.align self txt bound fuel i ≠ .error .outOfFuel := by
  intro fuel
  induction fuel with
  | zero =>
    intro i h
    have : ¬ i < bound := by omega
    simp [BoyerMoore.align, this]
  | succ fuel ih =>
    intro i h
    rw [BoyerMoore.align]
    by_cases hi : i < bound
    · simp only [hi, if_true]
      have hc := BoyerMoore.compare_ne_outOfFuel self txt i self.input.length
      cases hce : BoyerMoore.compare self txt i self.input.length with
      | error e => rw [hce] at hc; simpa [bind, Except.bind] using hc
      | ok s =>
        simp only [bind, Except.bind]
        by_cases hs : s = 0
        · simp [hs]
        · simp only [hs, if_false]
          have h1 : 1 ≤ s := (BoyerMoore.compare_skip self txt i _ s hce).resolve_left hs
          exact ih _ (by omega)
    · simp [hi]

/-- The alignment loop of `BoyerMoore::find_in` never runs out of fuel. -/
theorem BoyerMoore.find_in_ne_outOfFuel (self : BoyerMoore) (txt : List Nat) :
    BoyerMoore.find_in self txt ≠ .error .outOfFuel :=
  BoyerMoore.align_ne_outOfFuel self txt _ _ 0 (by omega)

/-! ## Knuth-Morris-Pratt: the shape of the table -/

theorem vecAt_eq_ok {α : Type} (v : List α) (i : Nat) (a : α) (h : vecAt v i = .ok a) :
    v[i]? = some a := by
  unfold vecAt at h
  split at h
  · rename_i b hb
    rw [hb]; simpa using h
  · simp at h

theorem vecAt_error {α : Type} (v : List α) (i : Nat) (e : Fault) (h : vecAt v i = .error e) :
    e = .vectorIndex := by
  unfold vecAt at h
  split at h
  · simp at h
  · simpa using h.symm

theorem vecSet_eq_ok {α : Type} (v : List α) (i : Nat) (a : α) (w : List α)
    (h : vecSet v i a = .ok w) : i < v.length ∧ w = v.set i a := by
  unfold vecSet at h
  split at h
  · rename_i hi
    exact ⟨hi, by simpa using h.symm⟩
  · simp at h

theorem vecSet_error {α : Type} (v : List α) (i : Nat) (a : α) (e : Fault)
    (h : vecSet v i a = .error e) : e = .vectorIndex := by
  unfold vecSet at h
  split at h
  · simp at h
  · simpa using h.symm

theorem vecSetInt_eq_ok {α : Type} (v : List α) (j : Int) (a : α) (w : List α)
    (h : vecSetInt v j a = .ok w) : 0 ≤ j ∧ j.toNat < v.length ∧ w = v.set j.toNat a := by
  unfold vecSetInt at h
  by_cases hj : j < 0
  · simp [hj] at h
  · rw [if_neg hj] at h
    obtain ⟨h1, h2⟩ := vecSet_eq_ok _ _ _ _ h
    exact ⟨by omega, h1, h2⟩

theorem vecSetInt_error {α : Type} (v : List α) (j : Int) (a : α) (e : Fault)
    (h : vecSetInt v j a = .error e) : e = .vectorIndex := by
  unfold vecSetInt at h
  by_cases hj : j < 0
  · rw [if_pos hj] at h
    simpa using h.symm
  · rw [if_neg hj] at h
    exact vecSet_error _ _ _ _ h

theorem vecAtInt_eq_ok {α : Type} (v : List α) (j : Int) (a : α)
    (h : vecAtInt v j = .ok a) : 0 ≤ j ∧ v[j.toNat]? = some a := by
  unfold vecAtInt at h
  by_cases hj : j < 0
  · simp [hj] at h
  · rw [if_neg hj] at h
    exact ⟨by omega, vecAt_eq_ok _ _ _ h⟩

theorem vecAtInt_error {α : Type} (v : List α) (j : Int) (e : Fault)
    (h : vecAtInt v j = .error e) : e = .vectorIndex := by
  unfold vecAtInt at h
  by_cases hj : j < 0
  · rw [if_pos hj] at h
    simpa using h.symm
  · rw [if_neg hj] at h
    exact vecAt_error _ _ _ h

theorem KMP.dfaAt_error (dfa : List (List Int)) (c j : Int) (e : Fault)
    (h : KMP.dfaAt dfa c j = .error e) : e = .vectorIndex := by
  unfold KMP.dfaAt at h
  cases hrow : vecAtInt dfa c with
  | error e' =>
    rw [hrow] at h
    simp only [bind, Except.bind, Except.error.injEq] at h
    rw [← h]; exact vecAtInt_error dfa c e' hrow
  | ok row =>
    rw [hrow] at h
    exact vecAtInt_error _ _ _ h

/-- An assignment `dfa[c][j] = v` that succeeds keeps the number of rows and the length of every
row. -/
theorem KMP.dfaSet_shape (dfa dfa' : List (List Int)) (c j v : Int) (n : Nat)
    (h : KMP.dfaSet dfa c j v = .ok dfa') (hrows : ∀ row ∈ dfa, row.length = n) :
    dfa'.length = dfa.length ∧ ∀ row ∈ dfa', row.length = n := by
  unfold KMP.dfaSet at h
  cases hrow : vecAtInt dfa c with
  | error e => rw [hrow] at h; simp [bind, Except.bind] at h
  | ok row =>
    cases hset : vecSetInt row j v with
    | error e => simp [bind, Except.bind, hrow, hset] at h
    | ok row' =>
      simp only [bind, Except.bind, hrow, hset] at h
      obtain ⟨_, _, hrow'⟩ := vecSetInt_eq_ok _ _ _ _ hset
      obtain ⟨_, _, hdfa'⟩ := vecSetInt_eq_ok _ _ _ _ h
      have hmem : row ∈ dfa := List.getElem?_mem (vecAtInt_eq_ok _ _ _ hrow).2
      subst hdfa' hrow'
      refine ⟨by simp, fun r hr => ?_⟩
      rcases List.mem_or_eq_of_mem_set hr with h1 | h1
      · exact hrows r h1
      · subst h1
        simpa using hrows row hmem

/-- An assignment `dfa[c][j] = v` with `j` beyond the rows is a fault. -/
theorem KMP.dfaSet_fails (dfa : List (List Int)) (c j v : Int) (n : Nat)
    (hrows : ∀ row ∈ dfa, row.length = n) (hj : (n : Int) ≤ j) :
    KMP.dfaSet dfa c j v = .error .vectorIndex := by
  unfold KMP.dfaSet
  cases hrow : vecAtInt dfa c with
  | error e => rw [vecAtInt_error _ _ _ hrow]; rfl
  | ok row =>
    have hlen : row.length = n :=
      hrows row (List.getElem?_mem (vecAtInt_eq_ok _ _ _ hrow).2)
    have h1 : ¬ j < 0 := by omega
    have h2 : ¬ j.toNat < row.length := by omega
    simp [bind, Except.bind, vecSetInt, vecSet, h1, h2]

theorem KMP.dfaSet_error (dfa : List (List Int)) (c j v : Int) (e : Fault)
    (h : KMP.dfaSet dfa c j v = .error e) : e = .vectorIndex := by
  unfold KMP.dfaSet at h
  cases hrow : vecAtInt dfa c with
  | error e' =>
    rw [hrow] at h
    simp only [bind, Except.bind, Except.error.injEq] at h
    rw [← h]; exact vecAtInt_error _ _ _ hrow
  | ok row =>
    cases hset : vecSetInt row j v with
    | error e' =>
      simp only [bind, Except.bind, hrow, hset, Except.error.injEq] at h
      rw [← h]; exact vecSetInt_error _ _ _ _ hset
    | ok row' =>
      simp only [bind, Except.bind, hrow, hset] at h
      exact vecSetInt_error _ _ _ _ h

theorem KMP.copyColumn_shape (i x : Int) (n : Nat) :
    ∀ (k c : Nat) (dfa dfa' : List (List Int)), KMP.copyColumn i x k c dfa = .ok dfa' →
      (∀ row ∈ dfa, row.length = n) →
      dfa'.length = dfa.length ∧ ∀ row ∈ dfa', row.length = n := by
  intro k
  induction k with
  | zero =>
    intro c dfa dfa' h hrows
    simp only [KMP.copyColumn, Except.ok.injEq] at h
    subst h
    exact ⟨rfl, hrows⟩
  | succ k ih =>
    intro c dfa dfa' h hrows
    rw [KMP.copyColumn] at h
    cases hv : KMP.dfaAt dfa (c : Int) x with
    | error e => rw [hv] at h; simp [bind, Except.bind] at h
    | ok v =>
      rw [hv] at h
      simp only [bind, Except.bind] at h
      cases hs : KMP.dfaSet dfa (c : Int) i v with
      | error e => rw [hs] at h; simp at h
      | ok dfa1 =>
        rw [hs] at h
        obtain ⟨h1, h2⟩ := KMP.dfaSet_shape _ _ _ _ _ n hs hrows
        obtain ⟨h3, h4⟩ := ih _ _ _ h h2
        exact ⟨by omega, h4⟩

theorem KMP.copyColumn_error (i x : Int) :
    ∀ (k c : Nat) (dfa : List (List Int)) (e : Fault),
      KMP.copyColumn i x k c dfa = .error e → e = .vectorIndex := by
  intro k
  induction k with
  | zero => intro c dfa e h; simp [KMP.copyColumn] at h
  | succ k ih =>
    intro c dfa e h
    rw [KMP.copyColumn] at h
    cases hv : KMP.dfaAt dfa (c : Int) x with
    | error e' =>
      rw [hv] at h
      simp only [bind, Except.bind, Except.error.injEq] at h
      rw [← h]; exact KMP.dfaAt_error _ _ _ _ hv
    | ok v =>
      rw [hv] at h
      simp only [bind, Except.bind] at h
      cases hs : KMP.dfaSet dfa (c : Int) i v with
      | error e' =>
        rw [hs] at h
        simp only [Except.error.injEq] at h
        rw [← h]; exact KMP.dfaSet_error _ _ _ _ _ hs
      | ok dfa1 =>
        rw [hs] at h
        exact ih _ _ _ h

/-- Copying into a column beyond the rows is a fault as soon as there is one symbol. -/
theorem KMP.copyColumn_fails (i x : Int) (n : Nat) (k c : Nat) (dfa : List (List Int))
    (hrows : ∀ row ∈ dfa, row.length = n) (hi : (n : Int) ≤ i) :
    KMP.copyColumn i x (k + 1) c dfa = .error .vectorIndex := by
  rw [KMP.copyColumn]
  cases hv : KMP.dfaAt dfa (c : Int) x with
  | error e => rw [KMP.dfaAt_error _ _ _ _ hv]; rfl
  | ok v =>
    simp only [bind, Except.bind]
    rw [KMP.dfaSet_fails dfa (c : Int) i v n hrows hi]

theorem KMP.buildLoop_shape (R : Nat) (input : List Nat) (n : Nat) :
    ∀ (k : Nat) (i x : Int) (dfa dfa' : List (List Int)),
      KMP.buildLoop R input k i x dfa = .ok dfa' → (∀ row ∈ dfa, row.length = n) →
      dfa'.length = dfa.length ∧ ∀ row ∈ dfa', row.length = n := by
  intro k
  induction k with
  | zero =>
    intro i x dfa dfa' h hrows
    simp only [KMP.buildLoop, Except.ok.injEq] at h
    subst h
    exact ⟨rfl, hrows⟩
  | succ k ih =>
    intro i x dfa dfa' h hrows
    rw [KMP.buildLoop] at h
    cases h1 : KMP.copyColumn i x R 0 dfa with
    | error e => simp [bind, Except.bind, h1] at h
    | ok dfa1 =>
      cases h2 : strAt input i.toNat with
      | error e => simp [bind, Except.bind, h1, h2] at h
      | ok ci =>
        cases h3 : KMP.dfaSet dfa1 ci i (i + 1) with
        | error e => simp [bind, Except.bind, h1, h2, h3] at h
        | ok dfa2 =>
          cases h4 : KMP.dfaAt dfa2 ci x with
          | error e => simp [bind, Except.bind, h1, h2, h3, h4] at h
          | ok x' =>
            simp only [bind, Except.bind, h1, h2, h3, h4] at h
            obtain ⟨a1, a2⟩ := KMP.copyColumn_shape i x n R 0 dfa dfa1 h1 hrows
            obtain ⟨b1, b2⟩ := KMP.dfaSet_shape _ _ _ _ _ n h3 a2
            obtain ⟨c1, c2⟩ := ih _ _ _ _ h b2
            exact ⟨by omega, c2⟩

/-- Once the column index has left the rows, the loop of the constructor faults in its next
iteration. -/
theorem KMP.buildLoop_fails (R : Nat) (input : List Nat) (n k : Nat) (i x : Int)
    (dfa : List (List Int)) (hR : 0 < R) (hrows : ∀ row ∈ dfa, row.length = n)
    (hi : (n : Int) ≤ i) :
    KMP.buildLoop R input (k + 1) i x dfa = .error .vectorIndex := by
  obtain ⟨r, rfl⟩ : ∃ r, R = r + 1 := ⟨R - 1, by omega⟩
  rw [KMP.buildLoop, KMP.copyColumn_fails i x n r 0 dfa hrows hi]
  rfl

/-- Every table that the constructor of `KMP` completes has `R` rows of two entries, whatever
the pattern and whatever the moved-from state of its parameter. -/
theorem KMP.build_shape (R : Nat) (moved s : List Nat) (kmp : KMP)
    (h : KMP.build R moved s = .ok kmp) :
    kmp.dfa.length = R ∧ ∀ row ∈ kmp.dfa, row.length = 2 := by
  unfold KMP.build at h
  have hrows0 : ∀ row ∈ List.replicate R [(moved.length : Int) + 1, 0], row.length = 2 := by
    intro row hrow
    rw [List.eq_of_mem_replicate hrow]; rfl
  cases h0 : strAt s 0 with
  | error e => simp [bind, Except.bind, h0] at h
  | ok c0 =>
    cases h1 : KMP.dfaSet (List.replicate R [(moved.length : Int) + 1, 0]) c0 0 1 with
    | error e => simp [bind, Except.bind, h0, h1] at h
    | ok dfa1 =>
      cases h2 : KMP.buildLoop R s (s.length - 1) 1 0 dfa1 with
      | error e => simp [bind, Except.bind, h0, h1, h2] at h
      | ok dfa2 =>
        simp only [bind, Except.bind, h0, h1, h2, Except.ok.injEq] at h
        subst h
        obtain ⟨a1, a2⟩ := KMP.dfaSet_shape _ _ _ _ _ 2 h1 hrows0
        obtain ⟨b1, b2⟩ := KMP.buildLoop_shape R s 2 _ _ _ _ _ h2 a2
        exact ⟨by simp only [b1, a1, List.length_replicate], b2⟩

/-- The constructor of `KMP` leaves its table for every pattern of three or more symbols,
whatever the moved-from state of its parameter. -/
theorem KMP.build_fails (R : Nat) (moved s : List Nat) (hR : 0 < R) (hs : 3 ≤ s.length) :
    KMP.build R moved s = .error .vectorIndex := by
  obtain ⟨k, hk⟩ : ∃ k, s.length - 1 = k + 1 + 1 := ⟨s.length - 3, by omega⟩
  have hrows0 : ∀ row ∈ List.replicate R [(moved.length : Int) + 1, 0], row.length = 2 := by
    intro row hrow
    rw [List.eq_of_mem_replicate hrow]; rfl
  unfold KMP.build
  simp only [strAt_of_lt s 0 (show 0 < s.length by omega), hk, bind, Except.bind]
  cases h1 : KMP.dfaSet (List.replicate R [(moved.length : Int) + 1, 0]) (toChar s[0]) 0 1 with
  | error e => rw [KMP.dfaSet_error _ _ _ _ _ h1]
  | ok dfa1 =>
    obtain ⟨_, a2⟩ := KMP.dfaSet_shape _ _ _ _ _ 2 h1 hrows0
    simp only
    rw [KMP.buildLoop]
    cases h2 : KMP.copyColumn 1 0 R 0 dfa1 with
    | error e => rw [KMP.copyColumn_error _ _ _ _ _ _ h2]; rfl
    | ok dfa2 =>
      obtain ⟨_, b2⟩ := KMP.copyColumn_shape 1 0 2 R 0 dfa1 dfa2 h2 a2
      have h3 : strAt s (1 : Int).toNat = .ok (toChar s[1]) := strAt_of_lt s 1 (by omega)
      simp only [bind, Except.bind, h3]
      cases h4 : KMP.dfaSet dfa2 (toChar s[1]) 1 (1 + 1) with
      | error e => rw [KMP.dfaSet_error _ _ _ _ _ h4]
      | ok dfa3 =>
        obtain ⟨_, c2⟩ := KMP.dfaSet_shape _ _ _ _ _ 2 h4 b2
        simp only
        cases h5 : KMP.dfaAt dfa3 (toChar s[1]) 0 with
        | error e => rw [KMP.dfaAt_error _ _ _ _ h5]
        | ok x' =>
          simp only
          rw [KMP.buildLoop_fails R s 2 k (1 + 1) x' dfa3 hR c2 (by norm_num)]

/-- For the empty pattern the constructor of `KMP` completes, whatever the moved-from state
of its parameter: only `dfa[0][0] = 1` is executed. -/
theorem KMP.build_empty (R : Nat) (moved : List Nat) (hR : 0 < R) :
    ∃ kmp, KMP.build R moved [] = .ok kmp := by
  obtain ⟨r, rfl⟩ : ∃ r, R = r + 1 := ⟨R - 1, by omega⟩
  simp [KMP.build, strAt, KMP.dfaSet, vecAtInt, vecAt, vecSetInt, vecSet, KMP.buildLoop,
    List.replicate_succ, bind, Except.bind]

/-- The table of a one-symbol pattern whose symbol is below 128: every row is `{s.size()+1, 0}`
as initialised, except that the row of the pattern symbol starts with 1. -/
theorem KMP.build_single (R : Nat) (moved : List Nat) (a : Nat) (ha : a < R) (ha' : a < 128) :
    KMP.build R moved [a] = .ok
      { input := [a], dfa := (List.replicate R [(moved.length : Int) + 1, 0]).set a [1, 0] } := by
  have hc : toChar a = (a : Int) := by
    unfold toChar
    rw [Nat.mod_eq_of_lt (by omega)]
    simp [ha']
  have h0 : ¬ ((a : Int) < 0) := by omega
  simp [KMP.build, strAt, hc, h0, KMP.dfaSet, vecAt, vecAtInt, vecSetInt, vecSet, KMP.buildLoop,
    List.getElem?_replicate, ha, bind, Except.bind]

/-- In the table of a one-symbol pattern every other symbol leads from state 0 to state
`s.size()+1`, which is not 0. -/
theorem KMP.build_single_state_zero (R : Nat) (moved : List Nat) (a c : Nat) (ha : a < R)
    (ha' : a < 128) (hc : c < R) (hne : c ≠ a) :
    ∃ kmp, KMP.build R moved [a] = .ok kmp ∧
      KMP.dfaAt kmp.dfa (c : Int) 0 = .ok ((moved.length : Int) + 1) := by
  refine ⟨_, KMP.build_single R moved a ha ha', ?_⟩
  have h0 : ¬ ((c : Int) < 0) := by omega
  simp [KMP.dfaAt, vecAt, vecAtInt, h0, List.getElem?_set, List.getElem?_replicate, hc,
    Ne.symm hne, bind, Except.bind]

/-! ## Rabin-Karp: the constructor -/

theorem tmod_997_bounds (a : Int) : -997 < Int.tmod a 997 ∧ Int.tmod a 997 < 997 := by
  refine ⟨?_, Int.tmod_lt_of_pos a (by norm_num)⟩
  rcases Int.le_total 0 a with h | h
  · have := Int.tmod_nonneg (997 : Int) h
    omega
  · have h1 : Int.tmod a 997 = a - 997 * a.tdiv 997 := Int.tmod_def a 997
    have h2 : Int.tmod (-a) 997 = -a - 997 * (-a).tdiv 997 := Int.tmod_def (-a) 997
    have h3 : (-a).tdiv 997 = -(a.tdiv 997) := Int.neg_tdiv a 997
    have h4 := Int.tmod_lt_of_pos (-a) (show (0 : Int) < 997 by norm_num)
    rw [h2, h3] at h4
    omega

/-- With `996 * R` in the range of `int`, the loop of the constructor computes
`rf * R^k mod 997` without overflow. -/
theorem removeLoop_eq (R : Nat) (hR : 996 * R ≤ 2147483647) :
    ∀ (k : Nat) (rf : Int), 0 ≤ rf → rf < 997 →
      RabinKarp.removeLoop R 997 k rf = .ok ((rf * (R : Int) ^ k) % 997) := by
  intro k
  induction k with
  | zero => intro rf h0 h1; simp [RabinKarp.removeLoop, Int.emod_eq_of_lt h0 h1]
  | succ k ih =>
    intro rf h0 h1
    have hnn : 0 ≤ rf * (R : Int) := by positivity
    have hle : rf * (R : Int) ≤ 996 * (R : Int) :=
      mul_le_mul_of_nonneg_right (by omega) (by positivity)
    have hR' : (996 : Int) * (R : Int) ≤ 2147483647 := by exact_mod_cast hR
    rw [RabinKarp.removeLoop, checkInt_ok _ (by omega) (by omega)]
    simp only [bind, Except.bind]
    rw [Int.tmod_eq_emod hnn (by norm_num),
      ih _ (Int.emod_nonneg _ (by norm_num)) (Int.emod_lt_of_pos _ (by norm_num))]
    have : rf * (R : Int) ^ (k + 1) = rf * (R : Int) * (R : Int) ^ k := by ring
    rw [this]
    exact congrArg Except.ok ((Int.mod_modEq _ _).mul_right _)

/-- With `996 * R + 128` in the range of `int`, the loop of `hash` returns for every string,
whatever its bytes. -/
theorem hashLoop_ok (R : Nat) (hR : 996 * R + 128 ≤ 2147483648) (s : List Nat) :
    ∀ (k i : Nat) (h : Int), -997 < h → h < 997 → i + k ≤ s.length →
      ∃ h', RabinKarp.hashLoop R 997 s k i h = .ok h' := by
  intro k
  induction k with
  | zero => intro i h _ _ _; exact ⟨h, rfl⟩
  | succ k ih =>
    intro i h h0 h1 hik
    have hi : i < s.length := by omega
    have hR' : (996 : Int) * (R : Int) + 128 ≤ 2147483648 := by exact_mod_cast hR
    have hle : h * (R : Int) ≤ 996 * (R : Int) :=
      mul_le_mul_of_nonneg_right (by omega) (by positivity)
    have hge : -996 * (R : Int) ≤ h * (R : Int) :=
      mul_le_mul_of_nonneg_right (by omega) (by positivity)
    have hc1 := toChar_ge s[i]
    have hc2 := toChar_le s[i]
    rw [RabinKarp.hashLoop, strAt_of_lt s i hi]
    simp only [bind, Except.bind]
    rw [checkInt_ok (h * (R : Int)) (by omega) (by omega)]
    simp only
    rw [checkInt_ok (h * (R : Int) + toChar s[i]) (by omega) (by omega)]
    exact ih (i + 1) _ (tmod_997_bounds _).1 (tmod_997_bounds _).2 (by omega)

theorem RabinKarp.new_ok (R : Nat) (s : List Nat) (hne : s ≠ [])
    (hR : 996 * R + 128 ≤ 2147483648) (hlen : s.length < 2147483648) :
    ∃ h, RabinKarp.new R s = .ok
      { input := s, prime := 997, input_hash := h,
        remove_factor := (R : Int) ^ (s.length - 1) % 997 } := by
  have hpos : 1 ≤ s.length := List.length_pos.mpr hne
  have hsub : sizeSub s.length 1 = s.length - 1 := by simp [sizeSub, hpos]
  have hguard : ¬ 2147483647 ≤ s.length - 1 := by omega
  obtain ⟨h, hh⟩ := hashLoop_ok R hR s s.length 0 0 (by norm_num) (by norm_num) (by omega)
  refine ⟨h, ?_⟩
  unfold RabinKarp.new RabinKarp.hash
  simp only [hsub, hguard, if_false, bind, Except.bind]
  rw [removeLoop_eq R (by omega) _ 1 (by norm_num) (by norm_num), hh]
  simp

/-! ## Rabin-Karp: the instrumented loop computes the same result -/

theorem RabinKarp.rollTrace_fst (R : Nat) (self : RabinKarp) (txt : List Nat) :
    ∀ (k i : Nat) (h : Int),
      (RabinKarp.rollTrace R self txt k i h).map Prod.fst = RabinKarp.roll R self txt k i h := by
  intro k
  induction k with
  | zero => intro i h; rfl
  | succ k ih =>
    intro i h
    rw [RabinKarp.rollTrace, RabinKarp.roll]
    cases strAt txt (sizeSub i self.input.length) with
    | error e => rfl
    | ok out =>
      simp only [bind, Except.bind]
      cases checkInt (self.remove_factor * out) with
      | error e => rfl
      | ok a =>
        simp only
        cases checkInt (h + self.prime) with
        | error e => rfl
        | ok b =>
          simp only
          cases checkInt (b - Int.tmod a self.prime) with
          | error e => rfl
          | ok c =>
            simp only
            cases strAt txt i with
            | error e => rfl
            | ok inc =>
              simp only
              cases checkInt (Int.tmod c self.prime * (R : Int)) with
              | error e => rfl
              | ok d =>
                simp only
                cases checkInt (d + inc) with
                | error e => rfl
                | ok e' =>
                  simp only
                  split
                  · rfl
                  · rw [← ih]
                    cases RabinKarp.rollTrace R self txt k (i + 1) _ with
                    | error e => rfl
                    | ok p => rfl

theorem RabinKarp.find_inTrace_fst (R : Nat) (self : RabinKarp) (txt : List Nat) :
    (RabinKarp.find_inTrace R self txt).map Prod.fst = RabinKarp.find_in R self txt := by
  unfold RabinKarp.find_inTrace RabinKarp.find_in
  cases RabinKarp.hash R self.prime txt self.input.length with
  | error e => rfl
  | ok h =>
    simp only [bind, Except.bind]
    split
    · rfl
    · rw [← RabinKarp.rollTrace_fst]
      cases RabinKarp.rollTrace R self txt _ _ _ with
      | error e => rfl
      | ok p => rfl

/-! ## Claims -/

set_option maxRecDepth 100000

/-- C1 (fails on the code): with R = 256 the matcher `KMP("a")` reports offset 0 in the text
`"b"`, where the pattern does not occur and the reference leftmost search gives the text
length 1. -/
theorem KMP_reports_match_for_absent_symbol :
    KMP.search 256 [97] [98] = .ok 0 ∧ referenceSearch [97] [98] = 1 := by
  decide

/-- C2 (fails on the code): with R = 256 the matcher `BoyerMoore("ack")` returns the text length
21 on `"findaneedleinhaystack"`, although the pattern occurs at offset 18, the last three
symbols of the text. -/
theorem BoyerMoore_misses_final_alignment :
    BoyerMoore.search 256 [97, 99, 107] haystack = .ok 21 ∧
      referenceSearch [97, 99, 107] haystack = 18 := by
  decide

/-- C3 (fails on the code): with R = 256 the matcher `RabinKarp("\xC8a")` returns the text
length 3 on the text `"a\xC8a"`, although the pattern occurs there at offset 1: the byte
`0xC8` enters `hash` as the negative `char` -56, so that `input_hash` is -281, which no rolled
hash equals. -/
theorem RabinKarp_high_byte_false_negative :
    RabinKarp.search 256 [200, 97] [97, 200, 97] = .ok 3 ∧
      referenceSearch [200, 97] [97, 200, 97] = 1 := by
  decide

/-- C4 (fails on the code): with R = 256, pattern `"\xC8a"` and text `"a\xC8a"`, the window
at offset 1 has the hash of the pattern, `hash` giving -281 for both, and yet `find_in` returns
the text length 3. -/
theorem RabinKarp_misses_equal_hash :
    ∃ rk, RabinKarp.new 256 [200, 97] = .ok rk ∧
      RabinKarp.hash 256 997 (window [97, 200, 97] 2 1) 2 = .ok rk.input_hash ∧
      RabinKarp.find_in 256 rk [97, 200, 97] = .ok 3 :=
  ⟨{ input := [200, 97], prime := 997, input_hash := -281, remove_factor := 256 },
    by decide, by decide, by decide⟩

/-- C5 (fails on the code): constructing `BoyerMoore` with the empty pattern, R = 256, produces
a matcher value. -/
theorem BoyerMoore_accepts_empty_pattern : ∃ m, BoyerMoore.new 256 [] = .ok m :=
  ⟨_, rfl⟩

/-- C5 as amended: for every radix `R > 0`, constructing `BoyerMoore` or `KMP` with the empty
pattern raises no error and produces a matcher, for `KMP` whatever the moved-from state of the
constructor's parameter. -/
theorem empty_pattern_is_accepted (R : Nat) (hR : 0 < R) :
    (∃ bm, BoyerMoore.new R [] = .ok bm) ∧ (∃ kmp, KMP.new R [] = .ok kmp) ∧
      ∀ moved, ∃ kmp, KMP.build R moved [] = .ok kmp :=
  ⟨⟨_, rfl⟩, KMP.build_empty R [] hR, fun moved => KMP.build_empty R moved hR⟩

/-- C5 as amended, at the radix of the benchmarks. -/
theorem empty_pattern_is_accepted_witness :
    (0 : Nat) < 256 ∧ (∃ bm, BoyerMoore.new 256 [] = .ok bm) ∧
      (∃ kmp, KMP.new 256 [] = .ok kmp) ∧ ∀ moved, ∃ kmp, KMP.build 256 moved [] = .ok kmp :=
  ⟨by decide, empty_pattern_is_accepted 256 (by decide)⟩

/-- C6 (fails on the code): on the benchmark inputs `BoyerMoore::find_in` does not return 8. -/
theorem boyer_moore_benchmark_is_not_8 : boyer_moore ≠ .ok 8 := by
  decide

/-- C6 as amended: with R = 256, pattern `"needle"` and text `"findaneedleinhaystack"`,
`find_in` of `BoyerMoore` and of `RabinKarp` returns 5, the offset where the pattern begins. -/
theorem benchmark_returns_5 :
    boyer_moore = .ok 5 ∧ rabin_karp = .ok 5 ∧ referenceSearch needle haystack = 5 := by
  decide

/-- C7 (fails on the code): the text `"findaneedleinhaystack"` has 21 symbols, and
`BoyerMoore("xyz").find_in` does not return 22 on it. -/
theorem xyz_sentinel_is_not_22 :
    haystack.length = 21 ∧ BoyerMoore.search radix xyz haystack ≠ .ok 22 := by
  decide

/-- C7 as amended: with R = 256, pattern `"xyz"` and text `"findaneedleinhaystack"`, `find_in`
of `BoyerMoore` and of `RabinKarp` returns the text length, which is 21. -/
theorem xyz_returns_text_length_21 :
    BoyerMoore.search radix xyz haystack = .ok (haystack.length : Int) ∧
      RabinKarp.search radix xyz haystack = .ok (haystack.length : Int) ∧
      haystack.length = 21 := by
  decide

/-- C8 (fails on the code): with R = 256 and the text equal to the pattern `"needle"`,
`BoyerMoore::find_in` returns the text length 6, not 0. -/
theorem BoyerMoore_text_equal_to_pattern :
    BoyerMoore.search radix needle needle = .ok 6 ∧ referenceSearch needle needle = 0 := by
  decide

/-- C9 (fails on the code): with R = 256, pattern `"abc"` and text `"a"`, both
`BoyerMoore::find_in` and `RabinKarp::find_in` read the text beyond its terminator. -/
theorem longer_pattern_reads_past_text :
    BoyerMoore.search 256 [97, 98, 99] [97] = .error .stringIndex ∧
      RabinKarp.search 256 [97, 98, 99] [97] = .error .stringIndex := by
  decide

/-- C10: Rabin-Karp reports false positives.  With R = 256 and modulus 997 the pattern `"ab"`
and the text `"eG"` have the same hash, so `find_in` returns 0 although the window there differs
from the pattern. -/
theorem RabinKarp_false_positive :
    ∃ (pattern text : List Nat) (r : Nat),
      pattern ≠ [] ∧ pattern.length ≤ text.length ∧
      (∀ c ∈ pattern, c < 256) ∧ (∀ c ∈ text, c < 256) ∧
      RabinKarp.search 256 pattern text = .ok (r : Int) ∧ r < text.length ∧
      window text pattern.length r ≠ pattern :=
  ⟨[97, 98], [101, 71], 0, by decide⟩

/-- C11 (fails on the code): with R = 256 and the pattern `"a"`, following the transition table
over the one symbol of the text `"b"` leads from state 0 to state 1, the pattern length,
although the pattern does not occur ending at position 1. -/
theorem KMP_automaton_accepts_absent_symbol :
    ∃ kmp, KMP.new 256 [97] = .ok kmp ∧ KMP.scan kmp [98] 1 0 0 = .ok (1, 1) ∧
      ¬ occursAt [97] [98] 0 :=
  ⟨_, rfl, by decide, by decide⟩

/-- C12 (fails on the code): with R = 256 and the pattern `"abc"` the constructor of `KMP`
leaves the bounds of a row of its table, so that no table is constructed. -/
theorem KMP_constructor_leaves_table :
    KMP.new 256 [97, 98, 99] = .error .vectorIndex := by
  decide

/-- C13 (fails on the code): with R = 256 and the pattern `"ab"` of length 2 the table of `KMP`
has 256 rows, and every row has 2 entries, not 3. -/
theorem KMP_rows_have_two_entries :
    ∃ kmp, KMP.new 256 [97, 98] = .ok kmp ∧ kmp.dfa.length = 256 ∧
      ∀ row ∈ kmp.dfa, row.length = 2 :=
  ⟨{ input := [97, 98], dfa := (List.replicate 256 [1, 1]).set 98 [1, 2] },
    by decide, by decide, by decide⟩

/-- C14 (fails on the code): with R = 256 and the pattern `"\xC8"` the constructor of
`BoyerMoore` executes `right[input[0]] = 0` with the `char` -56 as index, outside the vector,
so that no table with `right[200] = 0` is constructed. -/
theorem BoyerMoore_constructor_leaves_vector :
    BoyerMoore.new 256 [200] = .error .vectorIndex := by
  decide

/-- C15 (fails on the code): with R = 256 and the pattern `"a"` the table of `KMP` sends state 0
to state 1 under the symbol `'b'`, which is not the first symbol of the pattern. -/
theorem KMP_state_zero_advances_on_other_symbol :
    ∃ kmp, KMP.new 256 [97] = .ok kmp ∧ KMP.dfaAt kmp.dfa 97 0 = .ok 1 ∧
      KMP.dfaAt kmp.dfa 98 0 = .ok 1 :=
  ⟨_, rfl, by decide, by decide⟩

/-- C16 (fails on the code): with R = 256, pattern `"\xC8a"` and text `"a\xC8a"`, iteration
`i = 2` of the loop of `find_in` is reached and leaves `txt_hash = 716`, while `hash` applied
from scratch to the window `text[1 .. 3)` gives -281. -/
theorem RabinKarp_rolled_hash_differs :
    ∃ rk, RabinKarp.new 256 [200, 97] = .ok rk ∧
      RabinKarp.find_inTrace 256 rk [97, 200, 97] = .ok (3, 848, [(941, 716)]) ∧
      RabinKarp.hash 256 997 (window [97, 200, 97] 2 1) 2 = .ok (-281) :=
  ⟨{ input := [200, 97], prime := 997, input_hash := -281, remove_factor := 256 },
    by decide, by decide, by decide⟩

/-- C17 (fails on the code): with R = 2^24 and the pattern `"abc"` the second product
`remove_factor * R = 697 * 2^24` of the constructor does not fit in an `int`, and with a
pattern of 2^31 symbols the `int` counter of its loop is incremented past `INT_MAX`: no
matcher with `remove_factor = R^(m-1) mod 997` is constructed. -/
theorem RabinKarp_remove_factor_overflows :
    RabinKarp.new 16777216 [97, 98, 99] = .error .signedOverflow ∧
      RabinKarp.new 256 (List.replicate 2147483648 97) = .error .signedOverflow := by
  constructor
  · decide
  · have hsub : sizeSub (List.replicate 2147483648 97).length 1 = 2147483647 := by
      rw [List.length_replicate]
      unfold sizeSub
      norm_num
    unfold RabinKarp.new
    rw [hsub, if_pos (le_refl _)]

/-- C17 as amended: for every radix `R` with `996 * R + 128 ≤ 2^31` and every non-empty
pattern of length `m < 2^31`, the constructor of `RabinKarp` yields a matcher with
`remove_factor = R^(m-1) mod 997`; it is 1 when `m = 1`. -/
theorem RabinKarp_remove_factor (R : Nat) (pattern : List Nat) (hne : pattern ≠ [])
    (hR : 996 * R + 128 ≤ 2147483648) (hlen : pattern.length < 2147483648) :
    ∃ rk, RabinKarp.new R pattern = .ok rk ∧
      rk.remove_factor = ((R ^ (pattern.length - 1) % 997 : Nat) : Int) ∧
      (pattern.length = 1 → rk.remove_factor = 1) := by
  obtain ⟨h, hnew⟩ := RabinKarp.new_ok R pattern hne hR hlen
  refine ⟨_, hnew, ?_, ?_⟩
  · simp
  · intro h1
    simp [h1]

/-- C17 as amended, at the pattern `"needle"` with R = 256: the factor is
`256^5 mod 997 = 40`. -/
theorem RabinKarp_remove_factor_witness :
    ∃ rk, RabinKarp.new 256 needle = .ok rk ∧
      rk.remove_factor = ((256 ^ (needle.length - 1) % 997 : Nat) : Int) ∧
      (needle.length = 1 → rk.remove_factor = 1) :=
  RabinKarp_remove_factor 256 needle (by decide) (by decide) (by decide)

/-- C18 (fails on the code): with R = 256 and the pattern `"\xC8"`, `input_hash` is
`(0 * 256 - 56) % 997 = -56`, and so is the value that `find_in` assigns to `txt_hash` for the
first window of the text `"\xC8"`: both lie outside `[0, 997)`. -/
theorem RabinKarp_negative_hash :
    ∃ rk, RabinKarp.new 256 [200] = .ok rk ∧ rk.input_hash = -56 ∧
      RabinKarp.find_inTrace 256 rk [200] = .ok (0, -56, []) :=
  ⟨{ input := [200], prime := 997, input_hash := -56, remove_factor := 1 },
    by decide, by decide, by decide⟩

/-- C19 (fails on the code): with R = 256, pattern `"ab"` and text `"a\xE9abc"`, the first
iteration of the alignment loop of `find_in` meets the byte `0xE9` and computes its `skip` from
`right[-23]`, outside the vector: the search does not complete. -/
theorem BoyerMoore_skip_reads_outside_vector :
    ∃ bm, BoyerMoore.new 256 [97, 98] = .ok bm ∧
      BoyerMoore.compare bm [97, 233, 97, 98, 99] 0 2 = .error .vectorIndex ∧
      BoyerMoore.find_in bm [97, 233, 97, 98, 99] = .error .vectorIndex :=
  ⟨{ input := [97, 98], right := ((List.replicate 256 (-1)).set 97 0).set 98 1 },
    by decide, by decide, by decide⟩

/-- C20 (fails on the code): with R = 256, pattern `"ab"` and the text of bytes
`200, 200, 97, 98, 0`, the pattern occurs at offset 2, below `n - m = 3`, but `find_in` reads
`right[-56]`, outside the vector, at the first alignment and returns no result. -/
theorem BoyerMoore_high_byte_before_occurrence :
    BoyerMoore.search 256 [97, 98] [200, 200, 97, 98, 0] = .error .vectorIndex ∧
      occursAt [97, 98] [200, 200, 97, 98, 0] 2 ∧
      2 < [200, 200, 97, 98, 0].length - [97, 98].length := by
  decide

end SubstringSearch
